import Mathlib

/-!
Verification development for the activity-archive repository.

The Python sources under src/ are shallowly embedded as executable Lean
definitions: CSV rows and archived JSON records become structures over
String / Rat / Int fields, Python dicts become association lists with
insert-or-replace semantics, and datetime.fromisoformat is embedded as an
executable parser over the ISO date-time grammar that this program reads and
writes (YYYY-MM-DD sep HH:MM:SS with an optional +HH:MM / -HH:MM offset, any
single separator character, and the bare date form; fractional seconds and
other exotic ISO forms never occur in this repository's data).
Python string comparison (used by the CSV sort) is embedded by mapping a
string to its list of code points and comparing lexicographically, which is
exactly Python's semantics.
-/

set_option maxRecDepth 10000

/-- Python str.strip() whitespace set (ASCII part used by this repository). -/
def isPyWS (c : Char) : Bool :=
  c.toNat = 32 || c.toNat = 9 || c.toNat = 10 || c.toNat = 13 || c.toNat = 11 || c.toNat = 12

/-- Embedding of Python str.strip(): drop leading and trailing whitespace. -/
def pyStrip (s : String) : String :=
  String.mk (((s.data.dropWhile isPyWS).reverse.dropWhile isPyWS).reverse)

/-- Code points of a string; Python compares strings lexicographically on these. -/
def strCodes (s : String) : List Nat :=
  s.data.map Char.toNat

/-- Timestamp value produced by the embedded datetime.fromisoformat: a civil
date-time plus an optional UTC offset in minutes (none = naive). -/
structure DT where
  year : Nat
  month : Nat
  day : Nat
  hour : Nat
  minute : Nat
  second : Nat
  offset : Option Int
deriving DecidableEq, Repr

/-- Gregorian leap-year rule (as in Python's datetime). -/
def isLeap (y : Nat) : Bool :=
  y % 4 = 0 && (y % 100 ≠ 0 || y % 400 = 0)

def daysInMonth (y m : Nat) : Nat :=
  if m = 2 then (if isLeap y then 29 else 28)
  else if m = 4 || m = 6 || m = 9 || m = 11 then 30
  else 31

/-- Days since 1970-01-01 of a civil date (standard civil-from-days inverse
formula), valid for years ≥ 1 as enforced by the parser. -/
def civilDays (y m d : Nat) : Int :=
  let yy : Nat := if m ≤ 2 then y - 1 else y
  let era : Nat := yy / 400
  let yoe : Nat := yy - era * 400
  let mp : Nat := (m + 9) % 12
  let doy : Nat := (153 * mp + 2) / 5 + (d - 1)
  let doe : Nat := yoe * 365 + yoe / 4 - yoe / 100 + doy
  (era * 146097 + doe : Int) - 719468

/-- Instant key of a timestamp: seconds since the epoch, after subtracting the
UTC offset (naive timestamps are compared as if at offset 0, which matches
Python whenever all compared values are uniformly naive or uniformly UTC,
the only situations this repository's data produces). -/
def dtKey (t : DT) : Int :=
  civilDays t.year t.month t.day * 86400
    + ((t.hour * 3600 + t.minute * 60 + t.second : Nat) : Int)
    - 60 * (t.offset.getD 0)

def dtLt (a b : DT) : Bool := dtKey a < dtKey b

def dtLe (a b : DT) : Bool := dtKey a ≤ dtKey b

def isDigitB (c : Char) : Bool := 48 ≤ c.toNat && c.toNat ≤ 57

/-- Numeric value of two decimal digit characters. -/
def twoDigits (a b : Char) : Option Nat :=
  if isDigitB a && isDigitB b then some (10 * (a.toNat - 48) + (b.toNat - 48)) else none

def fourDigits (a b c d : Char) : Option Nat :=
  match twoDigits a b, twoDigits c d with
  | some hi, some lo => some (100 * hi + lo)
  | _, _ => none

def validDate (y m d : Nat) : Bool :=
  1 ≤ y && y ≤ 9999 && 1 ≤ m && m ≤ 12 && 1 ≤ d && d ≤ daysInMonth y m

def validTime (h mi s : Nat) : Bool :=
  h ≤ 23 && mi ≤ 59 && s ≤ 59

/-- Parse the optional timezone suffix: empty (naive) or +HH:MM / -HH:MM.
Returns none on a malformed suffix, some offset otherwise. -/
def parseOffsetTail : List Char → Option (Option Int)
  | [] => some none
  | sign :: h1 :: h2 :: col :: m1 :: m2 :: [] =>
    if (sign = ('+') || sign = ('-')) && col = (':') then
      match twoDigits h1 h2, twoDigits m1 m2 with
      | some hh, some mm =>
        if hh ≤ 23 && mm ≤ 59 then
          let mins : Int := (hh * 60 + mm : Nat)
          some (some (if sign = ('+') then mins else -mins))
        else none
      | _, _ => none
    else none
  | _ => none

/-- Embedding of datetime.fromisoformat on the grammar this repository uses:
a full date-time YYYY-MM-DD sep HH:MM:SS with any single separator character
and an optional +HH:MM / -HH:MM offset, or a bare date YYYY-MM-DD (parsed as
midnight, naive). Returns none exactly when parsing fails. -/
def fromisoformat (s : String) : Option DT :=
  match s.data with
  | [y1, y2, y3, y4, c1, m1, m2, c2, d1, d2] =>
    match fourDigits y1 y2 y3 y4, twoDigits m1 m2, twoDigits d1 d2 with
    | some y, some mo, some d =>
      if c1 = ('-') && c2 = ('-') && validDate y mo d then
        some ⟨y, mo, d, 0, 0, 0, none⟩
      else none
    | _, _, _ => none
  | y1 :: y2 :: y3 :: y4 :: c1 :: m1 :: m2 :: c2 :: d1 :: d2 :: _sep :: h1 :: h2 :: c3 ::
      n1 :: n2 :: c4 :: s1 :: s2 :: rest =>
    match fourDigits y1 y2 y3 y4, twoDigits m1 m2, twoDigits d1 d2,
        twoDigits h1 h2, twoDigits n1 n2, twoDigits s1 s2 with
    | some y, some mo, some d, some h, some n, some sec =>
      if c1 = ('-') && c2 = ('-') && c3 = (':') && c4 = (':')
          && validDate y mo d && validTime h n sec then
        match parseOffsetTail rest with
        | some off => some ⟨y, mo, d, h, n, sec, off⟩
        | none => none
      else none
    | _, _, _, _, _, _ => none
  | _ => none

/-- Embedding of Python max() over a list of timestamps: the first maximal
element, none for an empty list. -/
def pyMax (l : List DT) : Option DT :=
  l.foldl (fun acc d =>
    match acc with
    | none => some d
    | some m => if dtLt m d then some d else some m) none

/-- Embedding of the running minimum in get_archive_bounds: replace only on a
strictly smaller value. -/
def pyMin (l : List DT) : Option DT :=
  l.foldl (fun acc d =>
    match acc with
    | none => some d
    | some m => if dtLt d m then some d else some m) none

/-- First-some choice on options (Python's x or y on possibly-None values). -/
def oElse {α : Type} : Option α → Option α → Option α
  | some v, _ => some v
  | none, y => y

namespace ExportCsv

/-- One CSV row, restricted to the fields that the merge, the sort key and the
anchor computation inspect (the remaining columns ride along unchanged and are
represented by the free-text name field). -/
structure Row where
  id : String
  date_local : String
  start_time_local : String
  name : String
deriving DecidableEq, Repr

/-- Embedding of export_csv.parse_row_datetime: strip the date and time cells,
fail on an empty cell, otherwise parse date ++ "T" ++ time. -/
def parse_row_datetime (r : Row) : Option DT :=
  let date_s := pyStrip r.date_local
  let time_s := pyStrip r.start_time_local
  if date_s = ("") || time_s = ("") then none
  else fromisoformat (date_s ++ ("T") ++ time_s)

/-- Embedding of the anchor computed by load_existing_rows: the Python max of
the successfully parsed (date_local + start_time_local) instants, none when no
row parses. -/
def latest_dt (rows : List Row) : Option DT :=
  pyMax (rows.filterMap parse_row_datetime)

/-- Python dict assignment d[k] = v on an association list: replace the value
in place at the first occurrence of the key, else append. -/
def dictInsert : List (String × Row) → String → Row → List (String × Row)
  | [], k, v => [(k, v)]
  | (k1, v1) :: rest, k, v =>
    if k1 = k then (k1, v) :: rest else (k1, v1) :: dictInsert rest k v

/-- Python dict lookup d.get(k): the entry at the (unique) occurrence of the
key; first occurrence if the association list were ill-formed. -/
def dictLookup : List (String × Row) → String → Option Row
  | [], _ => none
  | (k1, v1) :: rest, k => if k1 = k then some v1 else dictLookup rest k

/-- Embedding of the seed dict comprehension of export_csv.main:
each existing row with a truthy (non-empty) id, keyed by that id. -/
def seedExisting (existing : List Row) : List (String × Row) :=
  existing.foldl (fun d r => if r.id ≠ ("") then dictInsert d r.id r else d) []

/-- Embedding of the merge loop of export_csv.main: seed with the existing
rows, then insert every new row keyed by its id, new rows overwriting. -/
def mergeById (existing news : List Row) : List (String × Row) :=
  news.foldl (fun d r => dictInsert d r.id r) (seedExisting existing)

/-- Python dict .values() in insertion order. -/
def dictValues (d : List (String × Row)) : List Row :=
  d.map (fun p => p.2)

/-- The last row of a list whose id equals the given key: in a Python dict
built by successive assignments, this is the surviving value for the key. -/
def lastMatch (n : List Row) (k : String) : Option Row :=
  n.foldl (fun acc r => if r.id = k then some r else acc) none

/-- Sort key of export_csv.main: the triple of the date, time and id strings,
each compared as Python compares strings (lexicographically on code points). -/
def rowKey (r : Row) : List Nat ×ₗ (List Nat ×ₗ List Nat) :=
  toLex (strCodes r.date_local, toLex (strCodes r.start_time_local, strCodes r.id))

/-- Descending comparison used by the reverse=True sort: r may come before s
iff the key of s is at most the key of r. -/
def rowDescLe (r s : Row) : Prop := rowKey s ≤ rowKey r

instance : DecidableRel rowDescLe := fun r s => by
  unfold rowDescLe; infer_instance

instance : IsTotal Row rowDescLe :=
  ⟨fun r s => (le_total (rowKey s) (rowKey r)).imp id id⟩

instance : IsTrans Row rowDescLe :=
  ⟨fun _ _ _ h1 h2 => le_trans h2 h1⟩

/-- Embedding of rows.sort(key=..., reverse=True): a stable descending sort.
Python list.sort is stable, so it is observably the stable insertion sort. -/
def sortRows (l : List Row) : List Row :=
  List.insertionSort rowDescLe l

/-- Whole reconciliation pipeline of export_csv.main after fetching: merge by
id, take the dict values, sort deterministically. -/
def reconcile (existing news : List Row) : List Row :=
  sortRows (dictValues (mergeById existing news))

/-- Strict descending order on rows: the key of s is strictly below the key
of r. -/
def rowDescLt (r s : Row) : Prop := rowKey s < rowKey r

instance : IsAntisymm Row rowDescLt :=
  ⟨fun _ _ h1 h2 => absurd h2 (lt_asymm h1)⟩

end ExportCsv

/-- Apostrophe character (code point 39), the quote used by the tagged
root=... wrapper strings. -/
def quoteChar : Char := Char.ofNat 39

/-- Python s.replace(c, r) for a single-character pattern: replace every
occurrence. -/
def replaceChar (s : String) (c : Char) (r : String) : String :=
  String.mk (s.data.foldr (fun x acc => if x = c then r.data ++ acc else x :: acc) [])

/-- Python pat in s substring test. -/
def isSubstr (pat : List Char) : List Char → Bool
  | [] => pat.isEmpty
  | c :: t => pat.isPrefixOf (c :: t) || isSubstr pat t

/-- Python round() to an integer: round half to even (banker's rounding). -/
def pyRound (x : ℚ) : Int :=
  let f := ⌊x⌋
  let r := x - f
  if r < 1 / 2 then f
  else if 1 / 2 < r then f + 1
  else if f % 2 = 0 then f else f + 1

/-- Python int() truncation of a number toward zero. -/
def intTrunc (q : ℚ) : Int :=
  if 0 ≤ q then ⌊q⌋ else ⌈q⌉

/-- Decimal rendering of a natural number left-padded with zeros to width w
(Python %0wd formatting for the nonnegative values that occur here). -/
def padNat (w n : Nat) : String :=
  let s := toString n
  String.mk (List.replicate (w - s.length) (Char.ofNat 48)) ++ s

/-- Python f-string 02d formatting of an integer. -/
def pad2 (i : Int) : String :=
  if 0 ≤ i ∧ i < 10 then ("0") ++ toString i else toString i

/-- The run-type design constant shared by every script. -/
def RUN_TYPES : List String := [("Run"), ("TrailRun"), ("VirtualRun")]

/-- Shape of a JSON field value as far as this repository's code inspects it:
a string, a number, or something else. -/
inductive JVal where
  | str (s : String)
  | num (q : ℚ)
  | other
deriving DecidableEq

/-- The fields of one archived activity JSON object that the bounds
computation and the report generators read. -/
structure ArchiveRecord where
  start_date : Option JVal
  start_date_local : Option JVal
  type : Option JVal
  sport_type : Option JVal
  distance : Option JVal
  moving_time : Option JVal
deriving DecidableEq

/-- Truthiness of an optional JSON value under Python bool(): absent and
empty-string and zero are falsy. -/
def jTruthy : Option JVal → Bool
  | none => false
  | some (JVal.str s) => s ≠ ("")
  | some (JVal.num q) => q ≠ 0
  | some JVal.other => true

namespace ExportActivitiesJson

/-- Embedding of export_activities_json.parse_iso: normalize a Z suffix to
+00:00, then datetime.fromisoformat; none on failure. -/
def parse_iso (s : String) : Option DT :=
  fromisoformat (replaceChar s (Char.ofNat 90) ("+00:00"))

/-- The start_date field of one archived record, parsed: the value must be a
string (isinstance check) and must parse. -/
def recStartDate (r : ArchiveRecord) : Option DT :=
  match r.start_date with
  | some (JVal.str s) => parse_iso s
  | _ => none

/-- One step of the get_archive_bounds scan: skip an unreadable file, skip a
non-string or unparseable start_date, otherwise update the running strict
minimum and maximum. -/
def boundsStep (acc : Option DT × Option DT) (f : Option ArchiveRecord) :
    Option DT × Option DT :=
  match f with
  | none => acc
  | some rec =>
    match recStartDate rec with
    | none => acc
    | some dt =>
      (match acc.1 with
        | none => some dt
        | some o => if dtLt dt o then some dt else some o,
       match acc.2 with
        | none => some dt
        | some n => if dtLt n dt then some dt else some n)

/-- Embedding of export_activities_json.get_archive_bounds over the list of
archive files (none = a file whose JSON does not load). -/
def get_archive_bounds (files : List (Option ArchiveRecord)) :
    Option DT × Option DT :=
  files.foldl boundsStep (none, none)

/-- The successfully parsed UTC start_date values of the archive, in file
order. -/
def archiveStartDates (files : List (Option ArchiveRecord)) : List DT :=
  files.filterMap (fun f => f.bind recStartDate)

/-- A record's timestamp as the spec's words describe the bounds scan: the
local-or-UTC start timestamp (prefer start_date_local, fall back to the UTC
start_date). Modelled from the spec for comparison with the code's
get_archive_bounds, which reads only start_date. -/
def recStartLocalOrUtc (r : ArchiveRecord) : Option DT :=
  oElse
    (match r.start_date_local with
      | some (JVal.str s) => parse_iso s
      | _ => none)
    (recStartDate r)

/-- Bounds computed the way the spec sentence reads, over local-or-UTC start
timestamps. Modelled from the spec: used only to exhibit where the code
differs. -/
def bounds_local_or_utc (files : List (Option ArchiveRecord)) :
    Option DT × Option DT :=
  (pyMin (files.filterMap (fun f => f.bind recStartLocalOrUtc)),
   pyMax (files.filterMap (fun f => f.bind recStartLocalOrUtc)))

/-- The three listing modes of export_activities_json.main. -/
inductive SyncMode where
  | older
  | new
  | default
deriving DecidableEq

/-- A fetch cursor passed to client.get_activities. -/
inductive Cursor where
  | before (t : DT)
  | after (t : DT)
deriving DecidableEq

/-- Embedding of the listing-window choice of export_activities_json.main:
older anchors strictly before the oldest bound, new and default anchor
strictly after the newest bound, and an empty bound means no cursor. -/
def chooseListingWindow : SyncMode → Option DT → Option DT → Option Cursor
  | SyncMode.older, oldest, _ => oldest.map Cursor.before
  | SyncMode.new, _, newest => newest.map Cursor.after
  | SyncMode.default, _, newest => newest.map Cursor.after

/-- Observable state of the download loop: the three printed counters, the ids
written this run (in order) and the ids for which a content fetch
(client.get_activity) was spent. -/
structure SyncResult where
  nListed : Nat
  nWritten : Nat
  nSkipped : Nat
  written : List String
  fetched : List String
deriving DecidableEq, Repr

def initSync : SyncResult := ⟨0, 0, 0, [], []⟩

/-- The stop condition of the download loop: the writes so far have reached
the optional limit (no limit never stops). -/
def limitReached : Option Nat → Nat → Bool
  | some l, w => l ≤ w
  | none, _ => false

/-- Embedding of the download loop of export_activities_json.main over the
listed candidate ids. Per candidate: stop when the writes so far have reached
the limit; otherwise count it as listed; skip (filesystem-only check, no
fetch) when its file already exists and force was not given; otherwise fetch
content, write the file and count the write. -/
def runSyncLoop (limit : Option Nat) (force : Bool) (existing : List String) :
    List String → SyncResult → SyncResult
  | [], st => st
  | c :: rest, st =>
    if limitReached limit st.nWritten then st
    else
      let st1 : SyncResult := { st with nListed := st.nListed + 1 }
      if (existing.contains c || st1.written.contains c) && !force then
        runSyncLoop limit force existing rest { st1 with nSkipped := st1.nSkipped + 1 }
      else
        runSyncLoop limit force existing rest
          { st1 with
            nWritten := st1.nWritten + 1,
            written := st1.written ++ [c],
            fetched := st1.fetched ++ [c] }

/-- The whole sync run over a candidate feed, from fresh counters. -/
def runSync (limit : Option Nat) (force : Bool) (existing feed : List String) :
    SyncResult :=
  runSyncLoop limit force existing feed initSync

end ExportActivitiesJson

/-- Attempt to match the regex root='([^']+)' at the head of the character
list: the literal root=' then a nonempty run of non-quote characters, then a
closing quote; returns the capture. -/
def matchRootAt (l : List Char) : Option (List Char) :=
  if (("root=").data ++ [quoteChar]).isPrefixOf l then
    let rest := l.drop 6
    let cap := rest.takeWhile (fun c => c != quoteChar)
    match cap, rest.drop cap.length with
    | _ :: _, c :: _ => if c = quoteChar then some cap else none
    | _, _ => none
  else none

/-- Leftmost search for root='([^']+)', as re.search does. -/
def rootSearch : List Char → Option (List Char)
  | [] => none
  | c :: t =>
    match matchRootAt (c :: t) with
    | some cap => some cap
    | none => rootSearch t

/-- Embedding of ROOT_RE.search(s): the first captured group of the leftmost
match of root='([^']+)', if any. -/
def ROOT_RE_search (s : String) : Option String :=
  (rootSearch s.data).map String.mk

namespace ActivityLib

/-- Embedding of activity_archive.activity.normalize_root_string: none maps to
the empty string, a tagged wrapper yields the embedded quoted value, anything
else is returned stripped. -/
def normalize_root_string (v : Option String) : String :=
  match v with
  | none => ""
  | some s =>
    match ROOT_RE_search s with
    | some g => g
    | none => pyStrip s

end ActivityLib

namespace GenerateCsv

/-- Embedding of generate_csv.extract_root_string: none maps to the empty
string, a tagged wrapper yields the embedded quoted value, anything else is
returned as is (unstripped, unlike normalize_root_string). -/
def extract_root_string (v : Option String) : String :=
  match v with
  | none => ""
  | some s =>
    match ROOT_RE_search s with
    | some g => g
    | none => s

/-- Embedding of generate_csv.pace_seconds_per_mile (identical in
export_csv.py): none on a non-positive distance or duration, else the exact
quotient. -/
def pace_seconds_per_mile (distance_mi moving_time_sec : ℚ) : Option ℚ :=
  if distance_mi ≤ 0 ∨ moving_time_sec ≤ 0 then none
  else some (moving_time_sec / distance_mi)

end GenerateCsv

namespace Units

/-- Embedding of activity_archive.units.seconds_to_mmss: empty on a
non-positive count, else M:SS with the seconds zero-padded to two digits. -/
def seconds_to_mmss (seconds : Int) : String :=
  if seconds ≤ 0 then ""
  else toString (seconds.fdiv 60) ++ (":") ++ pad2 (seconds.fmod 60)

/-- Embedding of activity_archive.units.pace_mmss: empty on a non-positive
distance or duration; otherwise the seconds-per-mile quotient is rounded to
the nearest whole second (Python round, half to even) and then split into
minutes and seconds. -/
def pace_mmss (distance_mi : ℚ) (moving_seconds : Int) : String :=
  if distance_mi ≤ 0 ∨ moving_seconds ≤ 0 then ""
  else seconds_to_mmss (pyRound ((moving_seconds : ℚ) / distance_mi))

end Units

namespace GenerateActivityLog

/-- Embedding of the parse_iso_datetime shared by generate_activity_log and
generate_run_log: non-strings and blank strings map to none; otherwise
normalize Z to +00:00, turn every space into T, and run fromisoformat. -/
def parse_iso_datetime : Option JVal → Option DT
  | some (JVal.str s) =>
    if pyStrip s = ("") then none
    else fromisoformat (replaceChar (replaceChar s (Char.ofNat 90) ("+00:00")) (Char.ofNat 32) ("T"))
  | _ => none

/-- Python str() of a JSON field value, used when a type field is not a
string. Non-string non-numeric values never occur in a type field of this
archive; their rendering is an unused placeholder. -/
def jToString : JVal → String
  | JVal.str s => s
  | JVal.num q => toString q
  | JVal.other => ("<object>")

/-- Embedding of the crude extract_type_str of the two log scripts: take the
first truthy of type / sport_type / the empty string; if it contains root=,
return the characters between the first two quotes; otherwise return it
stripped. -/
def extract_type_str (a : ArchiveRecord) : String :=
  let raw : String :=
    if jTruthy a.type then jToString ((a.type).getD JVal.other)
    else if jTruthy a.sport_type then jToString ((a.sport_type).getD JVal.other)
    else ""
  let l := raw.data
  if isSubstr (("root=").data) l then
    match l.findIdx? (fun c => c == quoteChar) with
    | some q1 =>
      match (l.drop (q1 + 1)).findIdx? (fun c => c == quoteChar) with
      | some off => String.mk ((l.drop (q1 + 1)).take off)
      | none => pyStrip raw
    | none => pyStrip raw
  else pyStrip raw

/-- Embedding of is_run of the log scripts. -/
def is_run (a : ArchiveRecord) : Bool :=
  RUN_TYPES.contains (extract_type_str a)

/-- Embedding of the collection phase of generate_activity_log.main: keep the
readable records whose local (preferred) or UTC start timestamp parses, paired
with that timestamp; every other file contributes nothing. -/
def collectActivities (files : List (Option ArchiveRecord)) :
    List (DT × ArchiveRecord) :=
  files.filterMap (fun f => f.bind (fun a =>
    (oElse (parse_iso_datetime a.start_date_local) (parse_iso_datetime a.start_date)).map
      (fun dt => (dt, a))))

end GenerateActivityLog

namespace GenerateRunLog

/-- Embedding of generate_run_log.safe_float: numbers pass through, everything
else (including the unit-suffixed strings the archive stores for distances)
falls back to 0. Purely numeric strings, which float() would accept, do not
occur in these fields. -/
def safe_float : Option JVal → ℚ
  | some (JVal.num q) => q
  | _ => 0

/-- Embedding of generate_run_log.safe_int: numbers are truncated toward zero,
everything else falls back to 0. -/
def safe_int : Option JVal → Int
  | some (JVal.num q) => intTrunc q
  | _ => 0

/-- Embedding of generate_run_log.meters_to_miles: a falsy (zero) input maps
to 0, anything else is divided by the constant. -/
def meters_to_miles (meters : ℚ) : ℚ :=
  if meters ≠ 0 then meters / ((1609344 : ℚ) / 1000) else 0

/-- Embedding of generate_run_log.seconds_to_mmss (no positivity guard in this
script). -/
def seconds_to_mmss (total_seconds : Int) : String :=
  toString (total_seconds.fdiv 60) ++ (":") ++ pad2 (total_seconds.fmod 60)

/-- Embedding of generate_run_log.seconds_to_hhmmss. -/
def seconds_to_hhmmss (total_seconds : Int) : String :=
  pad2 (total_seconds.fdiv 3600) ++ (":") ++ pad2 ((total_seconds.fmod 3600).fdiv 60)
    ++ (":") ++ pad2 (total_seconds.fmod 60)

/-- Embedding of generate_run_log.compute_pace_mmss. -/
def compute_pace_mmss (dist_mi : ℚ) (moving_seconds : Int) : String :=
  if dist_mi ≤ 0 ∨ moving_seconds ≤ 0 then ""
  else seconds_to_mmss (pyRound ((moving_seconds : ℚ) / dist_mi))

/-- One row of the runs log, as built by load_runs_by_month. -/
structure RunRow where
  date_str : String
  dist_mi : ℚ
  pace_mmss : String
  moving_seconds : Int
deriving DecidableEq

/-- strftime %Y-%m-%d of a timestamp's date. -/
def dateStr (dt : DT) : String :=
  padNat 4 dt.year ++ ("-") ++ padNat 2 dt.month ++ ("-") ++ padNat 2 dt.day

/-- Embedding of generate_run_log.load_runs_by_month, flattened to the list of
(year, month) bucket assignments in file order: a record contributes exactly
when its file is readable, it is a run, and its local (preferred) or UTC start
timestamp parses. -/
def runMonthEntries (files : List (Option ArchiveRecord)) :
    List ((Nat × Nat) × RunRow) :=
  files.filterMap (fun f => f.bind (fun a =>
    if GenerateActivityLog.is_run a then
      match oElse (GenerateActivityLog.parse_iso_datetime a.start_date_local)
          (GenerateActivityLog.parse_iso_datetime a.start_date) with
      | some dt =>
        let dist_mi := meters_to_miles (safe_float a.distance)
        let msec := safe_int a.moving_time
        some ((dt.year, dt.month), ⟨dateStr dt, dist_mi, compute_pace_mmss dist_mi msec, msec⟩)
      | none => none
    else none))

/-- Descending comparison on the date strings of two run rows, as used by the
per-month sort. -/
def runRowDescLe (a b : RunRow) : Prop :=
  strCodes b.date_str ≤ strCodes a.date_str

instance : DecidableRel runRowDescLe := fun a b => by
  unfold runRowDescLe; infer_instance

/-- Embedding of the per-month sort month_runs = sorted(runs, key=date_str,
reverse=True) (a stable descending sort). -/
def sortMonthRuns (runs : List RunRow) : List RunRow :=
  List.insertionSort runRowDescLe runs

/-- The running totals of render_month_block: total miles and total moving
seconds accumulated over the rendered rows. -/
def month_totals (runs : List RunRow) : ℚ × Int :=
  runs.foldl (fun acc rr => (acc.1 + rr.dist_mi, acc.2 + rr.moving_seconds)) (0, 0)

/-- Embedding of the average-pace line of render_month_block: divide only when
both totals are strictly positive, else the explicit N/A marker. -/
def render_pace_line (runs : List RunRow) : String :=
  let totals := month_totals (sortMonthRuns runs)
  if 0 < totals.1 ∧ 0 < totals.2 then
    ("Pace: ") ++ seconds_to_mmss (pyRound ((totals.2 : ℚ) / totals.1)) ++ ("/mi")
  else ("Pace: N/A")

end GenerateRunLog

theorem oElse_none_left {α : Type} (y : Option α) : oElse none y = y := rfl

theorem oElse_some_left {α : Type} (v : α) (y : Option α) : oElse (some v) y = some v := rfl

/-- The max fold, started from a present accumulator, yields a maximum of the
accumulator and the list. -/
theorem foldMax_some (l : List DT) : ∀ (a : DT),
    ∃ m, l.foldl (fun acc d =>
        match acc with
        | none => some d
        | some m => if dtLt m d then some d else some m) (some a) = some m ∧
      (m = a ∨ m ∈ l) ∧ dtKey a ≤ dtKey m ∧ ∀ d ∈ l, dtKey d ≤ dtKey m := by
  induction l with
  | nil => exact fun a => ⟨a, rfl, Or.inl rfl, le_refl _, by simp⟩
  | cons d t ih =>
    intro a
    by_cases h : dtLt a d
    · obtain ⟨m, hm, hmem, hle, hall⟩ := ih d
      have had : dtKey a < dtKey d := by simpa [dtLt] using h
      refine ⟨m, ?_, ?_, le_of_lt (lt_of_lt_of_le had hle), ?_⟩
      · simpa [List.foldl_cons, h] using hm
      · rcases hmem with h1 | h1
        · exact Or.inr (by simp [h1])
        · exact Or.inr (by simp [h1])
      · intro x hx
        rcases List.mem_cons.mp hx with h1 | h1
        · exact h1 ▸ hle
        · exact hall x h1
    · obtain ⟨m, hm, hmem, hle, hall⟩ := ih a
      have hda : dtKey d ≤ dtKey a := by simpa [dtLt, not_lt] using h
      refine ⟨m, ?_, ?_, hle, ?_⟩
      · simpa [List.foldl_cons, h] using hm
      · rcases hmem with h1 | h1
        · exact Or.inl h1
        · exact Or.inr (by simp [h1])
      · intro x hx
        rcases List.mem_cons.mp hx with h1 | h1
        · exact h1 ▸ le_trans hda hle
        · exact hall x h1

/-- The min fold, started from a present accumulator, yields a minimum of the
accumulator and the list. -/
theorem foldMin_some (l : List DT) : ∀ (a : DT),
    ∃ m, l.foldl (fun acc d =>
        match acc with
        | none => some d
        | some m => if dtLt d m then some d else some m) (some a) = some m ∧
      (m = a ∨ m ∈ l) ∧ dtKey m ≤ dtKey a ∧ ∀ d ∈ l, dtKey m ≤ dtKey d := by
  induction l with
  | nil => exact fun a => ⟨a, rfl, Or.inl rfl, le_refl _, by simp⟩
  | cons d t ih =>
    intro a
    by_cases h : dtLt d a
    · obtain ⟨m, hm, hmem, hle, hall⟩ := ih d
      have had : dtKey d < dtKey a := by simpa [dtLt] using h
      refine ⟨m, ?_, ?_, le_of_lt (lt_of_le_of_lt hle had), ?_⟩
      · simpa [List.foldl_cons, h] using hm
      · rcases hmem with h1 | h1
        · exact Or.inr (by simp [h1])
        · exact Or.inr (by simp [h1])
      · intro x hx
        rcases List.mem_cons.mp hx with h1 | h1
        · exact h1 ▸ hle
        · exact hall x h1
    · obtain ⟨m, hm, hmem, hle, hall⟩ := ih a
      have hda : dtKey a ≤ dtKey d := by simpa [dtLt, not_lt] using h
      refine ⟨m, ?_, ?_, hle, ?_⟩
      · simpa [List.foldl_cons, h] using hm
      · rcases hmem with h1 | h1
        · exact Or.inl h1
        · exact Or.inr (by simp [h1])
      · intro x hx
        rcases List.mem_cons.mp hx with h1 | h1
        · exact h1 ▸ le_trans hle hda
        · exact hall x h1

theorem pyMax_nil : pyMax [] = none := rfl

theorem pyMax_cons (d : DT) (t : List DT) :
    ∃ m, pyMax (d :: t) = some m ∧ m ∈ d :: t ∧ ∀ x ∈ d :: t, dtKey x ≤ dtKey m := by
  obtain ⟨m, hm, hmem, hle, hall⟩ := foldMax_some t d
  refine ⟨m, ?_, ?_, ?_⟩
  · simpa [pyMax, List.foldl_cons] using hm
  · rcases hmem with h1 | h1
    · simp [h1]
    · simp [h1]
  · intro x hx
    rcases List.mem_cons.mp hx with h1 | h1
    · exact h1 ▸ hle
    · exact hall x h1

theorem pyMax_eq_none_iff (l : List DT) : pyMax l = none ↔ l = [] := by
  cases l with
  | nil => simp [pyMax_nil]
  | cons d t =>
    obtain ⟨m, hm, _, _⟩ := pyMax_cons d t
    simp [hm]

theorem pyMax_mem_isub (l : List DT) (m : DT) (h : pyMax l = some m) :
    m ∈ l ∧ ∀ x ∈ l, dtKey x ≤ dtKey m := by
  cases l with
  | nil => simp [pyMax_nil] at h
  | cons d t =>
    obtain ⟨m2, hm2, hmem, hall⟩ := pyMax_cons d t
    rw [hm2] at h
    cases h
    exact ⟨hmem, hall⟩

theorem pyMin_nil : pyMin [] = none := rfl

theorem pyMin_cons (d : DT) (t : List DT) :
    ∃ m, pyMin (d :: t) = some m ∧ m ∈ d :: t ∧ ∀ x ∈ d :: t, dtKey m ≤ dtKey x := by
  obtain ⟨m, hm, hmem, hle, hall⟩ := foldMin_some t d
  refine ⟨m, ?_, ?_, ?_⟩
  · simpa [pyMin, List.foldl_cons] using hm
  · rcases hmem with h1 | h1
    · simp [h1]
    · simp [h1]
  · intro x hx
    rcases List.mem_cons.mp hx with h1 | h1
    · exact h1 ▸ hle
    · exact hall x h1

theorem pyMin_eq_none_iff (l : List DT) : pyMin l = none ↔ l = [] := by
  cases l with
  | nil => simp [pyMin_nil]
  | cons d t =>
    obtain ⟨m, hm, _, _⟩ := pyMin_cons d t
    simp [hm]

theorem pyMin_mem_lb (l : List DT) (m : DT) (h : pyMin l = some m) :
    m ∈ l ∧ ∀ x ∈ l, dtKey m ≤ dtKey x := by
  cases l with
  | nil => simp [pyMin_nil] at h
  | cons d t =>
    obtain ⟨m2, hm2, hmem, hall⟩ := pyMin_cons d t
    rw [hm2] at h
    cases h
    exact ⟨hmem, hall⟩

/-- pyRound is a nearest-integer rounding: it never strays more than half a
unit from its argument. -/
theorem pyRound_nearest (x : ℚ) : |x - (pyRound x : ℚ)| ≤ 1 / 2 := by
  unfold pyRound
  have h0 : (0 : ℚ) ≤ x - ⌊x⌋ := by
    have := Int.floor_le x
    linarith
  have h1 : x - ⌊x⌋ < 1 := by
    have := Int.lt_floor_add_one x
    linarith
  by_cases hlt : x - (⌊x⌋ : ℚ) < 1 / 2
  · simp only [hlt, if_true]
    rw [abs_le]
    constructor <;> push_cast <;> linarith
  · by_cases hgt : 1 / 2 < x - (⌊x⌋ : ℚ)
    · simp only [hlt, hgt, if_false, if_true]
      rw [abs_le]
      constructor <;> push_cast <;> linarith
    · have heq : x - (⌊x⌋ : ℚ) = 1 / 2 := le_antisymm (not_lt.mp hgt) (not_lt.mp hlt)
      by_cases hev : ⌊x⌋ % 2 = 0
      · simp only [hlt, hgt, hev, if_false, if_true]
        rw [abs_le]
        constructor <;> push_cast <;> linarith
      · simp only [hlt, hgt, hev, if_false]
        rw [abs_le]
        constructor <;> push_cast <;> linarith

/-- C8: pace_seconds_per_unit (pace_seconds_per_mile in the code) is none
exactly on a non-positive distance or duration and otherwise the exact
quotient duration / distance, with the quoted concrete values; formatting a
pace to MM:SS (units.pace_mmss) first rounds the quotient to a whole second
(Python round, a nearest rounding) and only then splits into minutes and
seconds. -/
theorem c8_pace_seconds_per_unit :
    (∀ d t : ℚ, (d ≤ 0 ∨ t ≤ 0) → GenerateCsv.pace_seconds_per_mile d t = none) ∧
    (∀ d t : ℚ, 0 < d → 0 < t → GenerateCsv.pace_seconds_per_mile d t = some (t / d)) ∧
    GenerateCsv.pace_seconds_per_mile 0 600 = none ∧
    GenerateCsv.pace_seconds_per_mile 5 0 = none ∧
    GenerateCsv.pace_seconds_per_mile 5 3000 = some 600 ∧
    (∀ (d : ℚ) (s : Int), 0 < d → 0 < s →
      Units.pace_mmss d s = Units.seconds_to_mmss (pyRound ((s : ℚ) / d))) ∧
    (∀ x : ℚ, |x - (pyRound x : ℚ)| ≤ 1 / 2) := by
  refine ⟨?_, ?_, ?_, ?_, ?_, ?_, pyRound_nearest⟩
  · intro d t h
    simp [GenerateCsv.pace_seconds_per_mile, h]
  · intro d t hd ht
    simp [GenerateCsv.pace_seconds_per_mile, not_le.mpr hd, not_le.mpr ht]
  · simp [GenerateCsv.pace_seconds_per_mile]
  · simp [GenerateCsv.pace_seconds_per_mile]
  · rw [GenerateCsv.pace_seconds_per_mile]
    norm_num
  · intro d s hd hs
    simp [Units.pace_mmss, not_le.mpr hd, not_le.mpr hs]

/-- C8 witness: the theorem instantiated at distance 5 and duration 3000. -/
theorem c8_pace_seconds_per_unit_witness :
    GenerateCsv.pace_seconds_per_mile 5 3000 = some ((3000 : ℚ) / 5) ∧
    Units.pace_mmss 5 3000 = Units.seconds_to_mmss (pyRound ((3000 : ℚ) / 5)) :=
  ⟨c8_pace_seconds_per_unit.2.1 5 3000 (by norm_num) (by norm_num),
   (c8_pace_seconds_per_unit.2.2.2.2.2.1) 5 3000 (by norm_num) (by norm_num)⟩

/-- C7 counterexample: on the input " Run " (no tagged wrapper) the
generate_csv variant extract_root_string returns the string unchanged, not
its trimmed form, so the claim of a trimmed fallback fails for it. -/
theorem c7_counterexample :
    GenerateCsv.extract_root_string (some (" Run ")) = (" Run ") ∧
    pyStrip (" Run ") = ("Run") ∧
    GenerateCsv.extract_root_string (some (" Run ")) ≠ pyStrip (" Run ") := by
  refine ⟨?_, ?_, ?_⟩ <;> decide

/-- C7 (amended): both normalizers return the embedded quoted value of a
tagged wrapper and the empty string on an absent input, and on every other
input normalize_root_string returns the trimmed string form while
extract_root_string returns the string form unchanged (untrimmed); on the
quoted concrete examples the two agree. -/
theorem c7_extract_enum_string :
    (ActivityLib.normalize_root_string none = ("") ∧
      GenerateCsv.extract_root_string none = ("")) ∧
    (∀ s g, ROOT_RE_search s = some g →
      ActivityLib.normalize_root_string (some s) = g ∧
      GenerateCsv.extract_root_string (some s) = g) ∧
    (∀ s, ROOT_RE_search s = none →
      ActivityLib.normalize_root_string (some s) = pyStrip s ∧
      GenerateCsv.extract_root_string (some s) = s) ∧
    (ActivityLib.normalize_root_string (some ("root='Walk'")) = ("Walk") ∧
      GenerateCsv.extract_root_string (some ("root='Walk'")) = ("Walk")) ∧
    (ActivityLib.normalize_root_string (some ("Run")) = ("Run") ∧
      GenerateCsv.extract_root_string (some ("Run")) = ("Run")) := by
  refine ⟨⟨rfl, rfl⟩, ?_, ?_, by constructor <;> decide, by constructor <;> decide⟩
  · intro s g h
    constructor
    · simp [ActivityLib.normalize_root_string, h]
    · simp [GenerateCsv.extract_root_string, h]
  · intro s h
    constructor
    · simp [ActivityLib.normalize_root_string, h]
    · simp [GenerateCsv.extract_root_string, h]

/-- C7 witness: the amended theorem instantiated at the tagged wrapper
root='Walk' and at the plain string Run. -/
theorem c7_extract_enum_string_witness :
    (ActivityLib.normalize_root_string (some ("root='Walk'")) = ("Walk") ∧
      GenerateCsv.extract_root_string (some ("root='Walk'")) = ("Walk")) ∧
    (ActivityLib.normalize_root_string (some ("Run")) = pyStrip ("Run") ∧
      GenerateCsv.extract_root_string (some ("Run")) = ("Run")) :=
  ⟨c7_extract_enum_string.2.1 ("root='Walk'") ("Walk") (by decide),
   c7_extract_enum_string.2.2.1 ("Run") (by decide)⟩

/-- C4: the sync planner's listing window follows the decision table: in mode
new or default with a known newest bound it requests strictly after that
newest timestamp, in mode older with a known oldest bound it requests strictly
before that oldest timestamp, and with an empty archive (no bounds) it
requests no cursor in every mode. -/
theorem c4_listing_window :
    (∀ (oldest newest : Option DT) (d : DT),
      (newest = some d →
        ExportActivitiesJson.chooseListingWindow ExportActivitiesJson.SyncMode.new oldest newest
            = some (ExportActivitiesJson.Cursor.after d) ∧
        ExportActivitiesJson.chooseListingWindow ExportActivitiesJson.SyncMode.default oldest newest
            = some (ExportActivitiesJson.Cursor.after d)) ∧
      (oldest = some d →
        ExportActivitiesJson.chooseListingWindow ExportActivitiesJson.SyncMode.older oldest newest
            = some (ExportActivitiesJson.Cursor.before d))) ∧
    (∀ mode, ExportActivitiesJson.chooseListingWindow mode none none = none) := by
  constructor
  · intro oldest newest d
    constructor
    · intro h
      subst h
      exact ⟨rfl, rfl⟩
    · intro h
      subst h
      rfl
  · intro mode
    cases mode <;> rfl

/-- C4 witness: the planner instantiated at an archive whose newest record is
2026-01-10, in mode new: the cursor is strictly after that timestamp. -/
theorem c4_listing_window_witness :
    ExportActivitiesJson.chooseListingWindow ExportActivitiesJson.SyncMode.new none
        (some ⟨2026, 1, 10, 0, 0, 0, none⟩)
      = some (ExportActivitiesJson.Cursor.after ⟨2026, 1, 10, 0, 0, 0, none⟩) :=
  ((c4_listing_window.1 none (some ⟨2026, 1, 10, 0, 0, 0, none⟩) ⟨2026, 1, 10, 0, 0, 0, none⟩).1
    rfl).1

/-- C5: the incremental-fetch anchor is the maximum of the instants parsed
from each existing row's (date_local + start_time_local); a row whose pair
fails to parse is excluded without error and never changes the anchor, and
the anchor is none exactly when no row parses. -/
theorem c5_anchor_max_of_parseable :
    (∀ (l1 l2 : List ExportCsv.Row) (r : ExportCsv.Row),
      ExportCsv.parse_row_datetime r = none →
      ExportCsv.latest_dt (l1 ++ r :: l2) = ExportCsv.latest_dt (l1 ++ l2)) ∧
    (∀ rows : List ExportCsv.Row,
      (ExportCsv.latest_dt rows = none ↔
        ∀ r ∈ rows, ExportCsv.parse_row_datetime r = none)) ∧
    (∀ (rows : List ExportCsv.Row) (m : DT), ExportCsv.latest_dt rows = some m →
      m ∈ rows.filterMap ExportCsv.parse_row_datetime ∧
      ∀ d ∈ rows.filterMap ExportCsv.parse_row_datetime, dtKey d ≤ dtKey m) := by
  refine ⟨?_, ?_, ?_⟩
  · intro l1 l2 r h
    simp [ExportCsv.latest_dt, List.filterMap_append, List.filterMap_cons, h]
  · intro rows
    rw [ExportCsv.latest_dt, pyMax_eq_none_iff, List.filterMap_eq_nil_iff]
  · intro rows m h
    exact pyMax_mem_isub _ m h

/-- C5 witness: a table of three rows, one of them with a corrupt date: the
anchor ignores the corrupt row and equals the maximum of the two parseable
instants. -/
theorem c5_anchor_max_of_parseable_witness :
    ExportCsv.latest_dt
        [⟨("11"), ("2026-01-10"), ("08:00:00"), ("a")⟩,
         ⟨("12"), ("corrupt"), ("08:00:00"), ("b")⟩,
         ⟨("13"), ("2026-01-09"), ("09:30:00"), ("c")⟩]
      = ExportCsv.latest_dt
        [⟨("11"), ("2026-01-10"), ("08:00:00"), ("a")⟩,
         ⟨("13"), ("2026-01-09"), ("09:30:00"), ("c")⟩] :=
  c5_anchor_max_of_parseable.1
    [⟨("11"), ("2026-01-10"), ("08:00:00"), ("a")⟩]
    [⟨("13"), ("2026-01-09"), ("09:30:00"), ("c")⟩]
    ⟨("12"), ("corrupt"), ("08:00:00"), ("b")⟩ (by decide)

/-- The bounds fold is componentwise the min fold and the max fold over the
successfully parsed start_date values. -/
theorem boundsFold_eq (files : List (Option ArchiveRecord)) :
    ∀ acc : Option DT × Option DT,
      files.foldl ExportActivitiesJson.boundsStep acc =
        ((ExportActivitiesJson.archiveStartDates files).foldl (fun a d =>
            match a with
            | none => some d
            | some m => if dtLt d m then some d else some m) acc.1,
         (ExportActivitiesJson.archiveStartDates files).foldl (fun a d =>
            match a with
            | none => some d
            | some m => if dtLt m d then some d else some m) acc.2) := by
  induction files with
  | nil => intro acc; simp [ExportActivitiesJson.archiveStartDates]
  | cons f t ih =>
    intro acc
    cases f with
    | none =>
      simpa [ExportActivitiesJson.archiveStartDates, List.filterMap_cons,
        ExportActivitiesJson.boundsStep] using ih acc
    | some rec =>
      cases h : ExportActivitiesJson.recStartDate rec with
      | none =>
        simpa [ExportActivitiesJson.archiveStartDates, List.filterMap_cons, h,
          ExportActivitiesJson.boundsStep] using ih acc
      | some dt =>
        have hstep : ExportActivitiesJson.boundsStep acc (some rec) =
            (match acc.1 with
              | none => some dt
              | some o => if dtLt dt o then some dt else some o,
             match acc.2 with
              | none => some dt
              | some n => if dtLt n dt then some dt else some n) := by
          simp [ExportActivitiesJson.boundsStep, h]
        have hdates : ExportActivitiesJson.archiveStartDates (some rec :: t) =
            dt :: ExportActivitiesJson.archiveStartDates t := by
          simp [ExportActivitiesJson.archiveStartDates, List.filterMap_cons, h]
        rw [List.foldl_cons, hstep, hdates, List.foldl_cons, List.foldl_cons]
        exact ih _

/-- get_archive_bounds is exactly (pyMin, pyMax) of the parsed UTC start_date
values of the archive. -/
theorem get_archive_bounds_eq (files : List (Option ArchiveRecord)) :
    ExportActivitiesJson.get_archive_bounds files =
      (pyMin (ExportActivitiesJson.archiveStartDates files),
       pyMax (ExportActivitiesJson.archiveStartDates files)) := by
  rw [ExportActivitiesJson.get_archive_bounds, boundsFold_eq files (none, none)]
  rfl

/-- C6 counterexample: an archive with one record that has a parseable
start_date_local but no start_date. Its local-or-UTC start timestamp exists,
so the claimed scan would produce bounds, but get_archive_bounds reads only
the UTC start_date and returns (none, none). -/
theorem c6_counterexample :
    ExportActivitiesJson.get_archive_bounds
        [some ⟨none, some (JVal.str ("2026-01-10T08:00:00")), none, none, none, none⟩]
      = (none, none) ∧
    ExportActivitiesJson.bounds_local_or_utc
        [some ⟨none, some (JVal.str ("2026-01-10T08:00:00")), none, none, none, none⟩]
      = (some ⟨2026, 1, 10, 8, 0, 0, none⟩, some ⟨2026, 1, 10, 8, 0, 0, none⟩) ∧
    ExportActivitiesJson.get_archive_bounds
        [some ⟨none, some (JVal.str ("2026-01-10T08:00:00")), none, none, none, none⟩]
      ≠ ExportActivitiesJson.bounds_local_or_utc
        [some ⟨none, some (JVal.str ("2026-01-10T08:00:00")), none, none, none, none⟩] := by
  refine ⟨?_, ?_, ?_⟩ <;> decide

/-- C6 (amended): get_archive_bounds returns the pair (minimum, maximum) of
the parseable UTC start_date timestamps of the archive's records (the
start_date field only; a record whose start_date is absent, non-string or
unparseable is excluded even when its local timestamp parses), and both
components are none exactly when the archive is empty or no record has a
parseable start_date. -/
theorem c6_bounds_utc_start_date (files : List (Option ArchiveRecord)) :
    ((ExportActivitiesJson.get_archive_bounds files).1 = none ↔
      ∀ f ∈ files, f.bind ExportActivitiesJson.recStartDate = none) ∧
    ((ExportActivitiesJson.get_archive_bounds files).2 = none ↔
      ∀ f ∈ files, f.bind ExportActivitiesJson.recStartDate = none) ∧
    (∀ m, (ExportActivitiesJson.get_archive_bounds files).1 = some m →
      m ∈ ExportActivitiesJson.archiveStartDates files ∧
      ∀ d ∈ ExportActivitiesJson.archiveStartDates files, dtKey m ≤ dtKey d) ∧
    (∀ m, (ExportActivitiesJson.get_archive_bounds files).2 = some m →
      m ∈ ExportActivitiesJson.archiveStartDates files ∧
      ∀ d ∈ ExportActivitiesJson.archiveStartDates files, dtKey d ≤ dtKey m) := by
  rw [get_archive_bounds_eq files]
  refine ⟨?_, ?_, ?_, ?_⟩
  · rw [show (pyMin (ExportActivitiesJson.archiveStartDates files),
        pyMax (ExportActivitiesJson.archiveStartDates files)).1
      = pyMin (ExportActivitiesJson.archiveStartDates files) from rfl,
      pyMin_eq_none_iff, ExportActivitiesJson.archiveStartDates, List.filterMap_eq_nil_iff]
  · rw [show (pyMin (ExportActivitiesJson.archiveStartDates files),
        pyMax (ExportActivitiesJson.archiveStartDates files)).2
      = pyMax (ExportActivitiesJson.archiveStartDates files) from rfl,
      pyMax_eq_none_iff, ExportActivitiesJson.archiveStartDates, List.filterMap_eq_nil_iff]
  · exact fun m h => pyMin_mem_lb _ m h
  · exact fun m h => pyMax_mem_isub _ m h

/-- C6 witness: the amended theorem instantiated at a two-record archive with
distinct UTC start dates; the oldest bound is the smaller one. -/
theorem c6_bounds_utc_start_date_witness :
    ⟨2026, 1, 9, 7, 0, 0, some 0⟩ ∈ ExportActivitiesJson.archiveStartDates
        [some ⟨some (JVal.str ("2026-01-10T08:00:00+00:00")), none, none, none, none, none⟩,
         some ⟨some (JVal.str ("2026-01-09T07:00:00+00:00")), none, none, none, none, none⟩] ∧
    ∀ d ∈ ExportActivitiesJson.archiveStartDates
        [some ⟨some (JVal.str ("2026-01-10T08:00:00+00:00")), none, none, none, none, none⟩,
         some ⟨some (JVal.str ("2026-01-09T07:00:00+00:00")), none, none, none, none, none⟩],
      dtKey ⟨2026, 1, 9, 7, 0, 0, some 0⟩ ≤ dtKey d :=
  (c6_bounds_utc_start_date
      [some ⟨some (JVal.str ("2026-01-10T08:00:00+00:00")), none, none, none, none, none⟩,
       some ⟨some (JVal.str ("2026-01-09T07:00:00+00:00")), none, none, none, none, none⟩]).2.2.1
    ⟨2026, 1, 9, 7, 0, 0, some 0⟩ (by decide)

/-- The totals fold of render_month_block computes the componentwise sums. -/
theorem month_totals_fold (l : List GenerateRunLog.RunRow) :
    ∀ a : ℚ × Int,
      l.foldl (fun acc rr => (acc.1 + rr.dist_mi, acc.2 + rr.moving_seconds)) a
        = (a.1 + (l.map GenerateRunLog.RunRow.dist_mi).sum,
           a.2 + (l.map GenerateRunLog.RunRow.moving_seconds).sum) := by
  induction l with
  | nil => intro a; simp
  | cons rr t ih =>
    intro a
    rw [List.foldl_cons, ih]
    simp only [List.map_cons, List.sum_cons, Prod.mk.injEq]
    constructor <;> ring

/-- The per-month sort does not change the totals. -/
theorem month_totals_sortMonthRuns (runs : List GenerateRunLog.RunRow) :
    GenerateRunLog.month_totals (GenerateRunLog.sortMonthRuns runs)
      = GenerateRunLog.month_totals runs := by
  have hperm : List.Perm (GenerateRunLog.sortMonthRuns runs) runs :=
    List.perm_insertionSort _ runs
  rw [GenerateRunLog.month_totals, GenerateRunLog.month_totals,
    month_totals_fold, month_totals_fold]
  rw [(hperm.map GenerateRunLog.RunRow.dist_mi).sum_eq,
    (hperm.map GenerateRunLog.RunRow.moving_seconds).sum_eq]

/-- A sum of non-positive integers is non-positive. -/
theorem sum_nonpos_of_all_nonpos (l : List Int) (h : ∀ x ∈ l, x ≤ 0) : l.sum ≤ 0 := by
  induction l with
  | nil => simp
  | cons x t ih =>
    rw [List.sum_cons]
    have hx := h x (by simp)
    have ht := ih (fun y hy => h y (by simp [hy]))
    omega

/-- C9: the average-pace line of a month bucket divides total seconds by total
miles only when both totals are strictly positive (so the divisor is nonzero),
and otherwise emits the explicit marker Pace: N/A; in particular a bucket with
no positive-duration record always yields Pace: N/A. The rendering logic is
the same in generate_run_log.render_month_block and
export_runs_log.render_month_block. -/
theorem c9_month_pace_guard (runs : List GenerateRunLog.RunRow) :
    (¬ (0 < (GenerateRunLog.month_totals runs).1 ∧
        0 < (GenerateRunLog.month_totals runs).2) →
      GenerateRunLog.render_pace_line runs = ("Pace: N/A")) ∧
    (0 < (GenerateRunLog.month_totals runs).1 →
      0 < (GenerateRunLog.month_totals runs).2 →
      GenerateRunLog.render_pace_line runs =
        ("Pace: ") ++ GenerateRunLog.seconds_to_mmss
          (pyRound (((GenerateRunLog.month_totals runs).2 : ℚ)
            / (GenerateRunLog.month_totals runs).1)) ++ ("/mi") ∧
      (GenerateRunLog.month_totals runs).1 ≠ 0) ∧
    ((∀ rr ∈ runs, rr.moving_seconds ≤ 0) →
      GenerateRunLog.render_pace_line runs = ("Pace: N/A")) := by
  have hrw : GenerateRunLog.render_pace_line runs =
      if 0 < (GenerateRunLog.month_totals runs).1 ∧
          0 < (GenerateRunLog.month_totals runs).2 then
        ("Pace: ") ++ GenerateRunLog.seconds_to_mmss
          (pyRound (((GenerateRunLog.month_totals runs).2 : ℚ)
            / (GenerateRunLog.month_totals runs).1)) ++ ("/mi")
      else ("Pace: N/A") := by
    rw [GenerateRunLog.render_pace_line, month_totals_sortMonthRuns]
  refine ⟨?_, ?_, ?_⟩
  · intro h
    rw [hrw, if_neg h]
  · intro h1 h2
    exact ⟨by rw [hrw, if_pos ⟨h1, h2⟩], ne_of_gt h1⟩
  · intro hall
    have hsec : (GenerateRunLog.month_totals runs).2 ≤ 0 := by
      have := month_totals_fold runs (0, 0)
      rw [GenerateRunLog.month_totals, this]
      simpa using sum_nonpos_of_all_nonpos _ (by
        intro x hx
        obtain ⟨rr, hrr, hrfl⟩ := List.mem_map.mp hx
        exact hrfl ▸ hall rr hrr)
    rw [hrw, if_neg]
    intro hcon
    exact absurd hsec (not_le.mpr hcon.2)

/-- C9 witness: a bucket with one run of positive distance but zero duration
renders Pace: N/A. -/
theorem c9_month_pace_guard_witness :
    GenerateRunLog.render_pace_line [⟨("2026-01-10"), 3, (""), 0⟩] = ("Pace: N/A") :=
  (c9_month_pace_guard [⟨("2026-01-10"), 3, (""), 0⟩]).2.2 (by
    intro rr hrr
    rcases List.mem_singleton.mp hrr with h
    simp [h])

/-- C10: a record whose start_date_local and start_date both fail to parse is
omitted entirely by both report generators: the all-activities collection and
the runs-by-month bucket assignments are the same as if the record's file were
not there at all. -/
theorem c10_unparseable_record_omitted
    (l1 l2 : List (Option ArchiveRecord)) (r : ArchiveRecord)
    (h1 : GenerateActivityLog.parse_iso_datetime r.start_date_local = none)
    (h2 : GenerateActivityLog.parse_iso_datetime r.start_date = none) :
    GenerateActivityLog.collectActivities (l1 ++ some r :: l2)
        = GenerateActivityLog.collectActivities (l1 ++ l2) ∧
    GenerateRunLog.runMonthEntries (l1 ++ some r :: l2)
        = GenerateRunLog.runMonthEntries (l1 ++ l2) := by
  constructor
  · simp [GenerateActivityLog.collectActivities, List.filterMap_append,
      List.filterMap_cons, h1, h2, oElse]
  · simp [GenerateRunLog.runMonthEntries, List.filterMap_append,
      List.filterMap_cons, h1, h2, oElse]

/-- C10 witness: an archive of a valid run record plus one record whose two
date fields are corrupt; the collections ignore the corrupt record. -/
theorem c10_unparseable_record_omitted_witness :
    GenerateActivityLog.collectActivities
        [some ⟨some (JVal.str ("2026-01-10T08:00:00+00:00")),
               some (JVal.str ("2026-01-10T00:00:00")),
               some (JVal.str ("Run")), none, some (JVal.num 5000), some (JVal.num 1500)⟩,
         some ⟨some (JVal.str ("garbage")), some (JVal.str ("also-garbage")),
               some (JVal.str ("Run")), none, none, none⟩]
      = GenerateActivityLog.collectActivities
        [some ⟨some (JVal.str ("2026-01-10T08:00:00+00:00")),
               some (JVal.str ("2026-01-10T00:00:00")),
               some (JVal.str ("Run")), none, some (JVal.num 5000), some (JVal.num 1500)⟩] ∧
    GenerateRunLog.runMonthEntries
        [some ⟨some (JVal.str ("2026-01-10T08:00:00+00:00")),
               some (JVal.str ("2026-01-10T00:00:00")),
               some (JVal.str ("Run")), none, some (JVal.num 5000), some (JVal.num 1500)⟩,
         some ⟨some (JVal.str ("garbage")), some (JVal.str ("also-garbage")),
               some (JVal.str ("Run")), none, none, none⟩]
      = GenerateRunLog.runMonthEntries
        [some ⟨some (JVal.str ("2026-01-10T08:00:00+00:00")),
               some (JVal.str ("2026-01-10T00:00:00")),
               some (JVal.str ("Run")), none, some (JVal.num 5000), some (JVal.num 1500)⟩] := by
  have h := c10_unparseable_record_omitted
    [some ⟨some (JVal.str ("2026-01-10T08:00:00+00:00")),
           some (JVal.str ("2026-01-10T00:00:00")),
           some (JVal.str ("Run")), none, some (JVal.num 5000), some (JVal.num 1500)⟩]
    []
    ⟨some (JVal.str ("garbage")), some (JVal.str ("also-garbage")),
     some (JVal.str ("Run")), none, none, none⟩
    (by decide) (by decide)
  simpa using h

namespace ExportActivitiesJson

/-- The loop never writes past the limit. -/
theorem runSyncLoop_writes_le (L : Nat) (force : Bool) (existing : List String) :
    ∀ (feed : List String) (st : SyncResult), st.nWritten ≤ L →
      (runSyncLoop (some L) force existing feed st).nWritten ≤ L := by
  intro feed
  induction feed with
  | nil => intro st h; exact h
  | cons c rest ih =>
    intro st h
    rw [runSyncLoop]
    by_cases hL : limitReached (some L) st.nWritten
    · rw [if_pos hL]
      exact h
    · rw [if_neg hL]
      have hlt : st.nWritten < L :=
        Nat.lt_of_not_le (by simpa [limitReached] using hL)
      by_cases hskip : (existing.contains c || st.written.contains c) && !force
      · rw [if_pos hskip]
        exact ih _ h
      · rw [if_neg hskip]
        exact ih _ (Nat.succ_le_of_lt hlt)

/-- Without force, a content fetch is spent only on candidates that do not
already exist locally. -/
theorem runSyncLoop_fetched_not_existing (limit : Option Nat) (existing : List String) :
    ∀ (feed : List String) (st : SyncResult) (c : String),
      c ∈ (runSyncLoop limit false existing feed st).fetched →
      c ∈ st.fetched ∨ existing.contains c = false := by
  intro feed
  induction feed with
  | nil => intro st c h; exact Or.inl h
  | cons d rest ih =>
    intro st c h
    rw [runSyncLoop] at h
    by_cases hL : limitReached limit st.nWritten
    · rw [if_pos hL] at h
      exact Or.inl h
    · rw [if_neg hL] at h
      by_cases hskip : existing.contains d || st.written.contains d
      · simp only [hskip, Bool.not_false, Bool.and_true, if_true] at h
        rcases ih _ c h with h1 | h1
        · exact Or.inl h1
        · exact Or.inr h1
      · simp only [hskip, Bool.not_false, Bool.and_true, if_false] at h
        rcases ih _ c h with h1 | h1
        · rcases List.mem_append.mp h1 with h2 | h2
          · exact Or.inl h2
          · right
            rcases List.mem_singleton.mp h2 with rfl
            rcases Bool.or_eq_false_iff.mp ((Bool.not_eq_true _).mp hskip) with ⟨h3, _⟩
            exact h3
        · exact Or.inr h1

end ExportActivitiesJson


/-- Bridge between the Bool contains check of the loop and list membership. -/
theorem contains_eq_false_iff (l : List String) (c : String) :
    l.contains c = false ↔ c ∉ l := by
  simp

namespace ExportActivitiesJson

/-- Without force, over a duplicate-free feed of candidates none of which was
written yet, the loop writes exactly up to the limit from the candidates that
do not exist locally. -/
theorem runSyncLoop_writes_eq (L : Nat) (existing : List String) :
    ∀ (feed : List String) (st : SyncResult), feed.Nodup →
      (∀ c ∈ feed, st.written.contains c = false) → st.nWritten ≤ L →
      (runSyncLoop (some L) false existing feed st).nWritten
        = min L (st.nWritten + (feed.filter (fun c => !existing.contains c)).length) := by
  intro feed
  induction feed with
  | nil =>
    intro st _ _ hle
    simp only [runSyncLoop, List.filter_nil, List.length_nil, Nat.add_zero]
    omega
  | cons c rest ih =>
    intro st hnodup hnw hle
    rw [runSyncLoop]
    by_cases hL : limitReached (some L) st.nWritten
    · rw [if_pos hL]
      have h1 : L ≤ st.nWritten := by simpa [limitReached] using hL
      have h2 : st.nWritten = L := le_antisymm hle h1
      rw [List.filter_cons]
      by_cases hex : !existing.contains c <;> simp [hex] <;> omega
    · rw [if_neg hL]
      have hlt : st.nWritten < L :=
        Nat.lt_of_not_le (by simpa [limitReached] using hL)
      have hwc : st.written.contains c = false := hnw c (by simp)
      by_cases hex : existing.contains c
      · simp only [hex, Bool.true_or, Bool.not_false, Bool.and_true, if_true]
        have hrec := ih { st with nListed := st.nListed + 1, nSkipped := st.nSkipped + 1 }
          (List.nodup_cons.mp hnodup).2
          (fun d hd => hnw d (by simp [hd])) hle
        rw [hrec, List.filter_cons]
        have hmem : c ∈ existing := by simpa using hex
        simp [hmem]
      · have hexf : existing.contains c = false := by
          simpa using hex
        simp only [hexf, hwc, Bool.or_self, Bool.false_or, Bool.not_false, Bool.and_true,
          Bool.false_eq_true, if_false]
        have hrest : ∀ d ∈ rest, (st.written ++ [c]).contains d = false := by
          intro d hd
          rw [contains_eq_false_iff]
          simp only [List.mem_append, List.mem_singleton]
          rintro (hmem | rfl)
          · exact (contains_eq_false_iff _ _).mp (hnw d (by simp [hd])) hmem
          · exact (List.nodup_cons.mp hnodup).1 hd
        have hrec := ih
          (SyncResult.mk (st.nListed + 1) (st.nWritten + 1) st.nSkipped
            (st.written ++ [c]) (st.fetched ++ [c]))
          (List.nodup_cons.mp hnodup).2 hrest (Nat.succ_le_of_lt hlt)
        rw [hrec, List.filter_cons]
        simp only [hexf, Bool.not_false, if_true, List.length_cons]
        omega

end ExportActivitiesJson


/-- C3 counterexample: limit 3, a feed of 10 candidates of which 5 already
exist locally, but ordered with three new candidates first. The loop writes
its 3 files and stops before ever examining the existing candidates, so none
of the 5 is skipped (the skip counter stays 0), refuting the claim that the 5
existing candidates are skipped. -/
theorem c3_counterexample :
    (ExportActivitiesJson.runSync (some 3) false
        [("e1"), ("e2"), ("e3"), ("e4"), ("e5")]
        [("n1"), ("n2"), ("n3"), ("e1"), ("e2"), ("e3"), ("e4"), ("e5"), ("n4"), ("n5")]).nWritten
      = 3 ∧
    (ExportActivitiesJson.runSync (some 3) false
        [("e1"), ("e2"), ("e3"), ("e4"), ("e5")]
        [("n1"), ("n2"), ("n3"), ("e1"), ("e2"), ("e3"), ("e4"), ("e5"), ("n4"), ("n5")]).nSkipped
      = 0 := by
  constructor <;> decide

/-- C3 (amended): the loop stops on the count of records written, never
writing past the limit, and without force it writes exactly
min(limit, number of listed candidates that are new) over a duplicate-free
feed; a content fetch is never spent on a candidate that already exists
locally; and in the quoted scenario (limit 3, 10 candidates, 5 existing) the
5 existing candidates are all skipped without a fetch when they are examined
before the limit is reached, e.g. when they come first: then exactly 3 new
files are written, 5 candidates are skipped and 8 are listed. -/
theorem c3_sync_loop_limit_and_skip :
    (∀ (L : Nat) (force : Bool) (existing feed : List String),
      (ExportActivitiesJson.runSync (some L) force existing feed).nWritten ≤ L) ∧
    (∀ (limit : Option Nat) (existing feed : List String),
      ∀ c ∈ (ExportActivitiesJson.runSync limit false existing feed).fetched,
        existing.contains c = false) ∧
    (∀ (L : Nat) (existing feed : List String), feed.Nodup →
      (ExportActivitiesJson.runSync (some L) false existing feed).nWritten
        = min L (feed.filter (fun c => !existing.contains c)).length) ∧
    ExportActivitiesJson.runSync (some 3) false
        [("e1"), ("e2"), ("e3"), ("e4"), ("e5")]
        [("e1"), ("e2"), ("e3"), ("e4"), ("e5"), ("n1"), ("n2"), ("n3"), ("n4"), ("n5")]
      = ⟨8, 3, 5, [("n1"), ("n2"), ("n3")], [("n1"), ("n2"), ("n3")]⟩ := by
  refine ⟨?_, ?_, ?_, by decide⟩
  · intro L force existing feed
    exact ExportActivitiesJson.runSyncLoop_writes_le L force existing feed
      ExportActivitiesJson.initSync (Nat.zero_le L)
  · intro limit existing feed c hc
    rcases ExportActivitiesJson.runSyncLoop_fetched_not_existing limit existing feed
        ExportActivitiesJson.initSync c hc with h1 | h1
    · simp [ExportActivitiesJson.initSync] at h1
    · exact h1
  · intro L existing feed hnodup
    have := ExportActivitiesJson.runSyncLoop_writes_eq L existing feed
      ExportActivitiesJson.initSync hnodup (by intro c _; rfl) (Nat.zero_le L)
    simpa [ExportActivitiesJson.runSync, ExportActivitiesJson.initSync] using this

/-- C3 witness: the exact-count part instantiated at the feed with the 5
existing candidates first; the loop writes exactly min 3 5 = 3 files. -/
theorem c3_sync_loop_limit_and_skip_witness :
    (ExportActivitiesJson.runSync (some 3) false
        [("e1"), ("e2"), ("e3"), ("e4"), ("e5")]
        [("e1"), ("e2"), ("e3"), ("e4"), ("e5"), ("n1"), ("n2"), ("n3"), ("n4"), ("n5")]).nWritten
      = min 3 ((([("e1"), ("e2"), ("e3"), ("e4"), ("e5"), ("n1"), ("n2"), ("n3"), ("n4"), ("n5")] :
          List String).filter
            (fun c => !([("e1"), ("e2"), ("e3"), ("e4"), ("e5")] : List String).contains c)).length) :=
  c3_sync_loop_limit_and_skip.2.2.1 3
    [("e1"), ("e2"), ("e3"), ("e4"), ("e5")]
    [("e1"), ("e2"), ("e3"), ("e4"), ("e5"), ("n1"), ("n2"), ("n3"), ("n4"), ("n5")]
    (by decide)


theorem oElse_none_right {α : Type} (x : Option α) : oElse x none = x := by
  cases x <;> rfl

theorem oElse_assoc {α : Type} (x y z : Option α) :
    oElse (oElse x y) z = oElse x (oElse y z) := by
  cases x <;> rfl

namespace ExportCsv

/-- Looking a key up after a dict assignment: the assigned value at that key,
the old table elsewhere. -/
theorem dictLookup_dictInsert (d : List (String × Row)) (k : String) (v : Row) :
    ∀ k2, dictLookup (dictInsert d k v) k2 = if k = k2 then some v else dictLookup d k2 := by
  induction d with
  | nil =>
    intro k2
    simp [dictInsert, dictLookup]
  | cons p t ih =>
    obtain ⟨k1, v1⟩ := p
    intro k2
    rw [dictInsert]
    by_cases h1 : k1 = k
    · subst h1
      rw [if_pos rfl]
      by_cases h2 : k1 = k2 <;> simp [dictLookup, h2]
    · rw [if_neg h1]
      by_cases h2 : k1 = k2
      · have hk : ¬ k = k2 := fun h => h1 (h2.trans h.symm)
        simp [dictLookup, h2, hk]
      · simp [dictLookup, h2, ih k2]

/-- The lastMatch fold from a general accumulator. -/
theorem foldl_lastMatch (k : String) :
    ∀ (n : List Row) (acc : Option Row),
      n.foldl (fun acc r => if r.id = k then some r else acc) acc
        = oElse (lastMatch n k) acc := by
  intro n
  induction n with
  | nil => intro acc; rfl
  | cons s u ih =>
    intro acc
    rw [List.foldl_cons, ih]
    have hsu : lastMatch (s :: u) k
        = oElse (lastMatch u k) (if s.id = k then some s else none) := by
      rw [lastMatch, List.foldl_cons, ih]
    rw [hsu, oElse_assoc]
    cases lastMatch u k with
    | some m => rfl
    | none =>
      by_cases hs : s.id = k <;> simp [hs, oElse]

/-- Unfolding lemma for lastMatch on a cons. -/
theorem lastMatch_cons (r : Row) (t : List Row) (k : String) :
    lastMatch (r :: t) k = oElse (lastMatch t k) (if r.id = k then some r else none) := by
  rw [lastMatch, List.foldl_cons, foldl_lastMatch]

/-- When no row carries the key, lastMatch is none. -/
theorem lastMatch_eq_none (k : String) :
    ∀ (n : List Row), (∀ r ∈ n, r.id ≠ k) → lastMatch n k = none := by
  intro n
  induction n with
  | nil => intro _; rfl
  | cons r t ih =>
    intro h
    rw [lastMatch_cons, ih (fun s hs => h s (by simp [hs])), if_neg (h r (by simp))]
    rfl

/-- Under duplicate-free ids, the last match is the first match. -/
theorem lastMatch_eq_find (k : String) :
    ∀ (n : List Row), List.Nodup (n.map Row.id) →
      lastMatch n k = n.find? (fun r => r.id == k) := by
  intro n
  induction n with
  | nil => intro _; rfl
  | cons r t ih =>
    intro hnodup
    rw [List.map_cons, List.nodup_cons] at hnodup
    obtain ⟨hhead, htail⟩ := hnodup
    rw [lastMatch_cons, List.find?_cons]
    by_cases hrk : r.id = k
    · have hnone : lastMatch t k = none := by
        apply lastMatch_eq_none
        intro s hs hsk
        exact hhead (by
          have hm : s.id ∈ t.map Row.id := List.mem_map_of_mem Row.id hs
          rw [hsk, ← hrk] at hm
          exact hm)
      rw [hnone, if_pos hrk, oElse_none_left]
      simp [hrk]
    · rw [if_neg hrk, oElse_none_right, ih htail]
      have hb : (r.id == k) = false := by simpa using hrk
      simp [hb]

/-- The merge loop looks up as: last new row with the key, else the seed. -/
theorem mergeFold_lookup (k : String) :
    ∀ (n : List Row) (d : List (String × Row)),
      dictLookup (n.foldl (fun d r => dictInsert d r.id r) d) k
        = oElse (lastMatch n k) (dictLookup d k) := by
  intro n
  induction n with
  | nil => intro d; rfl
  | cons r t ih =>
    intro d
    rw [List.foldl_cons, ih, lastMatch_cons, oElse_assoc]
    cases hlm : lastMatch t k with
    | some m => rfl
    | none =>
      rw [oElse_none_left, oElse_none_left, dictLookup_dictInsert]
      by_cases hrk : r.id = k
      · rw [if_pos hrk, if_pos hrk]
        rfl
      · rw [if_neg hrk, if_neg hrk]
        rfl

/-- The seed fold looks up as: last existing row with the (non-empty) key,
else the prior table; an empty key is never seeded. -/
theorem seedFold_lookup (k : String) :
    ∀ (e : List Row) (d : List (String × Row)),
      dictLookup (e.foldl (fun d r => if r.id ≠ ("") then dictInsert d r.id r else d) d) k
        = if k = ("") then dictLookup d k else oElse (lastMatch e k) (dictLookup d k) := by
  intro e
  induction e with
  | nil =>
    intro d
    by_cases hk : k = ("") <;> simp [hk, lastMatch, oElse]
  | cons r t ih =>
    intro d
    rw [List.foldl_cons, ih, lastMatch_cons]
    by_cases hk : k = ("")
    · rw [if_pos hk, if_pos hk]
      by_cases hr : r.id ≠ ("")
      · rw [if_pos hr, dictLookup_dictInsert, if_neg (by rw [hk]; exact fun h => hr h)]
      · rw [if_neg hr]
    · rw [if_neg hk, if_neg hk, oElse_assoc]
      cases hlm : lastMatch t k with
      | some m => rfl
      | none =>
        rw [oElse_none_left, oElse_none_left]
        by_cases hr : r.id ≠ ("")
        · rw [if_pos hr, dictLookup_dictInsert]
          by_cases hrk : r.id = k
          · rw [if_pos hrk, if_pos hrk]
            rfl
          · rw [if_neg hrk, if_neg hrk]
            rfl
        · have hre : r.id = ("") := not_not.mp hr
          have hrk : ¬ r.id = k := by rw [hre]; exact fun h => hk h.symm
          rw [if_neg hr, if_neg hrk]
          rfl

end ExportCsv


/-- C1: the CSV merge seeds a mapping with the existing table rows (keyed by
id) and then overwrites with the new rows, so when an id occurs among the new
rows the merged table holds that new row, when it occurs only in the existing
table the merged table holds the existing row, and on the concrete example
the merge of existing (1 to A, 2 to B) with new (2 to B2, 3 to C) is exactly
(1 to A, 2 to B2, 3 to C). -/
theorem c1_merge_new_wins :
    (∀ (existing news : List ExportCsv.Row),
      List.Nodup (existing.map ExportCsv.Row.id) →
      (∀ r ∈ existing, r.id ≠ ("")) →
      List.Nodup (news.map ExportCsv.Row.id) →
      (∀ k, (∃ r ∈ news, r.id = k) →
        ExportCsv.dictLookup (ExportCsv.mergeById existing news) k
          = news.find? (fun r => r.id == k)) ∧
      (∀ k, (∀ r ∈ news, r.id ≠ k) →
        ExportCsv.dictLookup (ExportCsv.mergeById existing news) k
          = existing.find? (fun r => r.id == k))) ∧
    ExportCsv.mergeById
        [⟨("1"), ("2026-01-01"), ("08:00:00"), ("A")⟩,
         ⟨("2"), ("2026-01-02"), ("08:10:00"), ("B")⟩]
        [⟨("2"), ("2026-01-02"), ("08:10:00"), ("B2")⟩,
         ⟨("3"), ("2026-01-03"), ("08:20:00"), ("C")⟩]
      = [(("1"), ⟨("1"), ("2026-01-01"), ("08:00:00"), ("A")⟩),
         (("2"), ⟨("2"), ("2026-01-02"), ("08:10:00"), ("B2")⟩),
         (("3"), ⟨("3"), ("2026-01-03"), ("08:20:00"), ("C")⟩)] := by
  constructor
  · intro existing news he hne hn
    constructor
    · intro k hex
      rw [ExportCsv.mergeById, ExportCsv.mergeFold_lookup,
        ExportCsv.lastMatch_eq_find k news hn]
      have hsome : (news.find? (fun r => r.id == k)).isSome := by
        rw [List.find?_isSome]
        obtain ⟨r, hr, hrk⟩ := hex
        exact ⟨r, hr, by simp [hrk]⟩
      obtain ⟨m, hm⟩ := Option.isSome_iff_exists.mp hsome
      rw [hm, oElse_some_left]
    · intro k hnone
      rw [ExportCsv.mergeById, ExportCsv.mergeFold_lookup,
        ExportCsv.lastMatch_eq_none k news hnone, oElse_none_left,
        ExportCsv.seedExisting, ExportCsv.seedFold_lookup]
      by_cases hk : k = ("")
      · rw [if_pos hk]
        have : existing.find? (fun r => r.id == k) = none := by
          rw [List.find?_eq_none]
          intro r hr
          simp [hk, hne r hr]
        rw [this]
        rfl
      · rw [if_neg hk, ExportCsv.lastMatch_eq_find k existing he]
        exact oElse_none_right _
  · decide

/-- C1 witness: the lookup characterization instantiated at the concrete
example: id 2 (present in both inputs) maps to the new row B2, id 1 (present
only in the existing table) maps to the existing row A. -/
theorem c1_merge_new_wins_witness :
    ExportCsv.dictLookup
        (ExportCsv.mergeById
          [⟨("1"), ("2026-01-01"), ("08:00:00"), ("A")⟩,
           ⟨("2"), ("2026-01-02"), ("08:10:00"), ("B")⟩]
          [⟨("2"), ("2026-01-02"), ("08:10:00"), ("B2")⟩,
           ⟨("3"), ("2026-01-03"), ("08:20:00"), ("C")⟩]) ("2")
      = some ⟨("2"), ("2026-01-02"), ("08:10:00"), ("B2")⟩ ∧
    ExportCsv.dictLookup
        (ExportCsv.mergeById
          [⟨("1"), ("2026-01-01"), ("08:00:00"), ("A")⟩,
           ⟨("2"), ("2026-01-02"), ("08:10:00"), ("B")⟩]
          [⟨("2"), ("2026-01-02"), ("08:10:00"), ("B2")⟩,
           ⟨("3"), ("2026-01-03"), ("08:20:00"), ("C")⟩]) ("1")
      = some ⟨("1"), ("2026-01-01"), ("08:00:00"), ("A")⟩ := by
  have h := c1_merge_new_wins.1
    [⟨("1"), ("2026-01-01"), ("08:00:00"), ("A")⟩,
     ⟨("2"), ("2026-01-02"), ("08:10:00"), ("B")⟩]
    [⟨("2"), ("2026-01-02"), ("08:10:00"), ("B2")⟩,
     ⟨("3"), ("2026-01-03"), ("08:20:00"), ("C")⟩]
    (by decide) (by decide) (by decide)
  constructor
  · rw [h.1 ("2") ⟨⟨("2"), ("2026-01-02"), ("08:10:00"), ("B2")⟩, by decide, rfl⟩]
    decide
  · rw [h.2 ("1") (by decide)]
    decide


/-- Code-point lists determine the string. -/
theorem strCodes_inj {s1 s2 : String} (h : strCodes s1 = strCodes s2) : s1 = s2 := by
  have hchar : Function.Injective Char.toNat := by
    intro a b hab
    have : Char.ofNat a.toNat = Char.ofNat b.toNat := by rw [hab]
    simpa [Char.ofNat_toNat] using this
  have hdata : s1.data = s2.data :=
    (List.map_injective_iff.mpr hchar) h
  cases s1
  cases s2
  exact congrArg String.mk hdata

namespace ExportCsv

/-- Equal sort keys force equal ids. -/
theorem id_eq_of_rowKey_eq {a b : Row} (h : rowKey a = rowKey b) : a.id = b.id := by
  rw [rowKey, rowKey, toLex_inj, Prod.mk.injEq] at h
  obtain ⟨-, h2⟩ := h
  rw [toLex_inj, Prod.mk.injEq] at h2
  exact strCodes_inj h2.2

/-- Rows with duplicate-free ids have duplicate-free sort keys. -/
theorem nodup_rowKey_of_nodup_id (l : List Row) (h : List.Nodup (l.map Row.id)) :
    List.Nodup (l.map rowKey) := by
  rw [List.Nodup, List.pairwise_map] at h ⊢
  exact h.imp (fun hne hkey => hne (id_eq_of_rowKey_eq hkey))

/-- Keys after a dict assignment: unchanged when the key is present, appended
otherwise. -/
theorem dictInsert_keys (k : String) (v : Row) :
    ∀ d : List (String × Row),
      (dictInsert d k v).map Prod.fst =
        if k ∈ d.map Prod.fst then d.map Prod.fst else d.map Prod.fst ++ [k] := by
  intro d
  induction d with
  | nil => simp [dictInsert]
  | cons p t ih =>
    obtain ⟨k1, v1⟩ := p
    rw [dictInsert]
    by_cases h1 : k1 = k
    · subst h1
      simp
    · rw [if_neg h1, List.map_cons, List.map_cons, ih]
      have hk1 : ¬ k = k1 := fun hh => h1 hh.symm
      have hmem : (k ∈ k1 :: t.map Prod.fst) ↔ k ∈ t.map Prod.fst := by
        simp [List.mem_cons, hk1]
      by_cases h2 : k ∈ t.map Prod.fst
      · simp [h2, hmem]
      · simp only [List.map_cons]
        rw [if_neg h2, if_neg (fun hc => h2 (hmem.mp hc))]
        simp

/-- Every entry after a dict assignment is an old entry or the new pair. -/
theorem dictInsert_mem (k : String) (v : Row) :
    ∀ (d : List (String × Row)) (p : String × Row),
      p ∈ dictInsert d k v → p ∈ d ∨ p = (k, v) := by
  intro d
  induction d with
  | nil =>
    intro p hp
    simp [dictInsert] at hp
    exact Or.inr hp
  | cons q t ih =>
    obtain ⟨k1, v1⟩ := q
    intro p hp
    rw [dictInsert] at hp
    by_cases h1 : k1 = k
    · subst h1
      rcases List.mem_cons.mp (by simpa [if_pos rfl] using hp) with h2 | h2
      · exact Or.inr (by simp [h2])
      · exact Or.inl (by simp [h2])
    · rcases List.mem_cons.mp (by simpa [if_neg h1] using hp) with h2 | h2
      · exact Or.inl (by simp [h2])
      · rcases ih p h2 with h3 | h3
        · exact Or.inl (by simp [h3])
        · exact Or.inr h3

/-- A dict assignment keeps the keys duplicate-free. -/
theorem dictInsert_nodup_keys (k : String) (v : Row) (d : List (String × Row))
    (h : (d.map Prod.fst).Nodup) : ((dictInsert d k v).map Prod.fst).Nodup := by
  rw [dictInsert_keys]
  by_cases hmem : k ∈ d.map Prod.fst
  · rw [if_pos hmem]
    exact h
  · rw [if_neg hmem]
    simp [List.nodup_append, h, hmem]

/-- Assigning a fresh key appends the pair at the end. -/
theorem dictInsert_append_of_not_mem (k : String) (v : Row) :
    ∀ d : List (String × Row), k ∉ d.map Prod.fst → dictInsert d k v = d ++ [(k, v)] := by
  intro d
  induction d with
  | nil => intro _; rfl
  | cons q t ih =>
    obtain ⟨k1, v1⟩ := q
    intro h
    have h1 : ¬ k1 = k := by
      intro hc
      exact h (by simp [hc])
    rw [dictInsert, if_neg h1, ih (fun hc => h (by simp [hc]))]
    rfl

end ExportCsv


namespace ExportCsv

/-- Invariant of the seed fold: keys stay duplicate-free, every entry's value
carries its key as id, and no key is empty. -/
theorem seedFold_inv :
    ∀ (e : List Row) (d : List (String × Row)),
      (d.map Prod.fst).Nodup → (∀ p ∈ d, p.2.id = p.1) → (∀ p ∈ d, p.1 ≠ ("")) →
      ((((e.foldl (fun d r => if r.id ≠ ("") then dictInsert d r.id r else d) d)).map
          Prod.fst).Nodup ∧
        (∀ p ∈ e.foldl (fun d r => if r.id ≠ ("") then dictInsert d r.id r else d) d,
          p.2.id = p.1) ∧
        (∀ p ∈ e.foldl (fun d r => if r.id ≠ ("") then dictInsert d r.id r else d) d,
          p.1 ≠ (""))) := by
  intro e
  induction e with
  | nil => intro d h1 h2 h3; exact ⟨h1, h2, h3⟩
  | cons r t ih =>
    intro d h1 h2 h3
    rw [List.foldl_cons]
    by_cases hr : r.id ≠ ("")
    · rw [if_pos hr]
      refine ih _ (dictInsert_nodup_keys r.id r d h1) ?_ ?_
      · intro p hp
        rcases dictInsert_mem r.id r d p hp with h4 | h4
        · exact h2 p h4
        · rw [h4]
      · intro p hp
        rcases dictInsert_mem r.id r d p hp with h4 | h4
        · exact h3 p h4
        · rw [h4]
          exact hr
    · rw [if_neg hr]
      exact ih d h1 h2 h3

/-- Invariant of the merge fold over the new rows (all of which carry
non-empty ids). -/
theorem mergeFold_inv :
    ∀ (n : List Row) (d : List (String × Row)), (∀ r ∈ n, r.id ≠ ("")) →
      (d.map Prod.fst).Nodup → (∀ p ∈ d, p.2.id = p.1) → (∀ p ∈ d, p.1 ≠ ("")) →
      (((n.foldl (fun d r => dictInsert d r.id r) d).map Prod.fst).Nodup ∧
        (∀ p ∈ n.foldl (fun d r => dictInsert d r.id r) d, p.2.id = p.1) ∧
        (∀ p ∈ n.foldl (fun d r => dictInsert d r.id r) d, p.1 ≠ (""))) := by
  intro n
  induction n with
  | nil => intro d _ h1 h2 h3; exact ⟨h1, h2, h3⟩
  | cons r t ih =>
    intro d hn h1 h2 h3
    rw [List.foldl_cons]
    refine ih _ (fun s hs => hn s (by simp [hs])) (dictInsert_nodup_keys r.id r d h1) ?_ ?_
    · intro p hp
      rcases dictInsert_mem r.id r d p hp with h4 | h4
      · exact h2 p h4
      · rw [h4]
    · intro p hp
      rcases dictInsert_mem r.id r d p hp with h4 | h4
      · exact h3 p h4
      · rw [h4]
        exact hn r (by simp)

/-- The merged dict of export_csv.main: duplicate-free keys, each value
keyed by its own id, no empty key (given non-empty new ids). -/
theorem mergeById_inv (existing news : List Row) (hn : ∀ r ∈ news, r.id ≠ ("")) :
    (((mergeById existing news).map Prod.fst).Nodup ∧
      (∀ p ∈ mergeById existing news, p.2.id = p.1) ∧
      (∀ p ∈ mergeById existing news, p.1 ≠ (""))) := by
  rw [mergeById]
  obtain ⟨h1, h2, h3⟩ := seedFold_inv existing [] (by simp) (by simp) (by simp)
  exact mergeFold_inv news (seedExisting existing) hn h1 h2 h3

/-- Seeding from a table whose rows have duplicate-free, non-empty ids (and
whose ids avoid the accumulator's keys) just appends each row keyed by its
id, in order. -/
theorem seedFold_eq_map :
    ∀ (s : List Row) (d : List (String × Row)),
      (∀ r ∈ s, r.id ∉ d.map Prod.fst) → (s.map Row.id).Nodup →
      (∀ r ∈ s, r.id ≠ ("")) →
      s.foldl (fun d r => if r.id ≠ ("") then dictInsert d r.id r else d) d
        = d ++ s.map (fun r => (r.id, r)) := by
  intro s
  induction s with
  | nil => intro d _ _ _; simp
  | cons r t ih =>
    intro d hdisj hnodup hne
    rw [List.foldl_cons, if_pos (hne r (by simp)),
      dictInsert_append_of_not_mem r.id r d (hdisj r (by simp))]
    rw [List.map_cons, List.nodup_cons] at hnodup
    have hrec := ih (d ++ [(r.id, r)]) ?_ hnodup.2 (fun x hx => hne x (by simp [hx]))
    · rw [hrec]
      simp
    · intro x hx
      simp only [List.map_append, List.mem_append]
      rintro (hc | hc)
      · exact hdisj x (by simp [hx]) hc
      · have : x.id = r.id := by simpa using hc
        exact hnodup.1 (this ▸ List.mem_map_of_mem Row.id hx)

/-- seedExisting of a clean table is the table itself, keyed by id. -/
theorem seedExisting_eq_map (s : List Row) (hnodup : (s.map Row.id).Nodup)
    (hne : ∀ r ∈ s, r.id ≠ ("")) :
    seedExisting s = s.map (fun r => (r.id, r)) := by
  rw [seedExisting, seedFold_eq_map s [] (by simp) hnodup hne]
  simp

/-- The ids of the merged dict's values are its keys. -/
theorem dictValues_ids (d : List (String × Row)) (h : ∀ p ∈ d, p.2.id = p.1) :
    (dictValues d).map Row.id = d.map Prod.fst := by
  rw [dictValues, List.map_map]
  exact List.map_congr_left h

end ExportCsv


namespace ExportCsv

theorem sortRows_perm (l : List Row) : List.Perm (sortRows l) l :=
  List.perm_insertionSort rowDescLe l

theorem sortRows_sorted (l : List Row) : List.Sorted rowDescLe (sortRows l) :=
  List.sorted_insertionSort rowDescLe l

/-- A non-strictly sorted row list with duplicate-free keys is strictly
descending. -/
theorem pairwise_strict_of_sorted_nodup (l : List Row)
    (hs : List.Sorted rowDescLe l) (hn : List.Nodup (l.map rowKey)) :
    List.Pairwise rowDescLt l := by
  have hne : List.Pairwise (fun a b : Row => rowKey a ≠ rowKey b) l :=
    List.pairwise_map.mp hn
  exact (List.Pairwise.and hs hne).imp
    (fun h => lt_of_le_of_ne h.1 (Ne.symm h.2))

/-- Any two permutations of the same rows, with duplicate-free ids, sort to
the same list. -/
theorem sortRows_eq_of_perm (l1 l2 : List Row) (hp : List.Perm l1 l2)
    (hn : List.Nodup (l1.map Row.id)) : sortRows l1 = sortRows l2 := by
  have hn2 : List.Nodup (l2.map Row.id) := ((hp.map Row.id).nodup_iff).mp hn
  have hk1 : List.Nodup ((sortRows l1).map rowKey) :=
    (((sortRows_perm l1).map rowKey).nodup_iff).mpr (nodup_rowKey_of_nodup_id l1 hn)
  have hk2 : List.Nodup ((sortRows l2).map rowKey) :=
    (((sortRows_perm l2).map rowKey).nodup_iff).mpr (nodup_rowKey_of_nodup_id l2 hn2)
  have hperm : List.Perm (sortRows l1) (sortRows l2) :=
    (sortRows_perm l1).trans (hp.trans (sortRows_perm l2).symm)
  exact List.eq_of_perm_of_sorted hperm
    (pairwise_strict_of_sorted_nodup _ (sortRows_sorted l1) hk1)
    (pairwise_strict_of_sorted_nodup _ (sortRows_sorted l2) hk2)

/-- Re-running the reconciler on its own output with no new rows reproduces
the output exactly. -/
theorem reconcile_idempotent (existing news : List Row)
    (hn : ∀ r ∈ news, r.id ≠ ("")) :
    reconcile (reconcile existing news) [] = reconcile existing news := by
  obtain ⟨hk, hv, hne⟩ := mergeById_inv existing news hn
  have hvid : (dictValues (mergeById existing news)).map Row.id
      = (mergeById existing news).map Prod.fst :=
    dictValues_ids _ hv
  have hsid : ((reconcile existing news).map Row.id).Nodup := by
    rw [reconcile]
    exact (((sortRows_perm _).map Row.id).nodup_iff).mpr (by rw [hvid]; exact hk)
  have hsne : ∀ r ∈ reconcile existing news, r.id ≠ ("") := by
    intro r hr
    have hrv : r ∈ dictValues (mergeById existing news) :=
      (sortRows_perm _).mem_iff.mp (by rw [reconcile] at hr; exact hr)
    obtain ⟨p, hp, hpr⟩ := List.mem_map.mp (by rw [dictValues] at hrv; exact hrv)
    rw [← hpr, hv p hp]
    exact hne p hp
  have hsorted : List.Sorted rowDescLe (reconcile existing news) := by
    rw [reconcile]
    exact sortRows_sorted _
  rw [show reconcile (reconcile existing news) []
      = sortRows (dictValues (seedExisting (reconcile existing news))) from rfl,
    seedExisting_eq_map _ hsid hsne]
  have hval : dictValues ((reconcile existing news).map (fun r => (r.id, r)))
      = reconcile existing news := by
    have hid : List.map (Prod.snd ∘ fun r : Row => (r.id, r)) (reconcile existing news)
        = List.map id (reconcile existing news) := List.map_congr_left (fun a _ => rfl)
    rw [dictValues, List.map_map, hid, List.map_id]
  rw [hval]
  exact hsorted.insertionSort_eq

end ExportCsv

/-- C2: the reconciler's output order is a strict descending sort on the
composite key (date_local, start_time_local, id), each component compared as
Python compares strings (by code points): the sorted list is a permutation of
its input, strictly descending once ids are duplicate-free, and identical for
any insertion order of the same rows; consequently re-running the reconciler
on its own output with no new rows reproduces the row list exactly, which
makes repeated runs byte-identical (the CSV writer is a deterministic
function of the row list). -/
theorem c2_deterministic_descending_sort :
    (∀ l : List ExportCsv.Row, List.Perm (ExportCsv.sortRows l) l) ∧
    (∀ l : List ExportCsv.Row, List.Nodup (l.map ExportCsv.Row.id) →
      List.Pairwise ExportCsv.rowDescLt (ExportCsv.sortRows l)) ∧
    (∀ l1 l2 : List ExportCsv.Row, List.Perm l1 l2 →
      List.Nodup (l1.map ExportCsv.Row.id) →
      ExportCsv.sortRows l1 = ExportCsv.sortRows l2) ∧
    (∀ existing news : List ExportCsv.Row, (∀ r ∈ news, r.id ≠ ("")) →
      ExportCsv.reconcile (ExportCsv.reconcile existing news) []
        = ExportCsv.reconcile existing news) := by
  refine ⟨ExportCsv.sortRows_perm, ?_, ExportCsv.sortRows_eq_of_perm,
    ExportCsv.reconcile_idempotent⟩
  intro l hn
  exact ExportCsv.pairwise_strict_of_sorted_nodup _ (ExportCsv.sortRows_sorted l)
    ((((ExportCsv.sortRows_perm l).map ExportCsv.rowKey).nodup_iff).mpr
      (ExportCsv.nodup_rowKey_of_nodup_id l hn))

/-- C2 witness: idempotence and strictness instantiated at the concrete
merge example of the spec. -/
theorem c2_deterministic_descending_sort_witness :
    ExportCsv.reconcile
        (ExportCsv.reconcile
          [⟨("1"), ("2026-01-01"), ("08:00:00"), ("A")⟩,
           ⟨("2"), ("2026-01-02"), ("08:10:00"), ("B")⟩]
          [⟨("2"), ("2026-01-02"), ("08:10:00"), ("B2")⟩,
           ⟨("3"), ("2026-01-03"), ("08:20:00"), ("C")⟩]) []
      = ExportCsv.reconcile
          [⟨("1"), ("2026-01-01"), ("08:00:00"), ("A")⟩,
           ⟨("2"), ("2026-01-02"), ("08:10:00"), ("B")⟩]
          [⟨("2"), ("2026-01-02"), ("08:10:00"), ("B2")⟩,
           ⟨("3"), ("2026-01-03"), ("08:20:00"), ("C")⟩] ∧
    List.Pairwise ExportCsv.rowDescLt
      (ExportCsv.sortRows
        [⟨("1"), ("2026-01-01"), ("08:00:00"), ("A")⟩,
         ⟨("3"), ("2026-01-03"), ("08:20:00"), ("C")⟩,
         ⟨("2"), ("2026-01-02"), ("08:10:00"), ("B2")⟩]) :=
  ⟨c2_deterministic_descending_sort.2.2.2
      [⟨("1"), ("2026-01-01"), ("08:00:00"), ("A")⟩,
       ⟨("2"), ("2026-01-02"), ("08:10:00"), ("B")⟩]
      [⟨("2"), ("2026-01-02"), ("08:10:00"), ("B2")⟩,
       ⟨("3"), ("2026-01-03"), ("08:20:00"), ("C")⟩]
      (by decide),
   c2_deterministic_descending_sort.2.1
      [⟨("1"), ("2026-01-01"), ("08:00:00"), ("A")⟩,
       ⟨("3"), ("2026-01-03"), ("08:20:00"), ("C")⟩,
       ⟨("2"), ("2026-01-02"), ("08:10:00"), ("B2")⟩]
      (by decide)⟩
